import Mathlib

/-!
Verification of the JATS XML table/figure validator
(`streamlit_validator.py`, class `JATSValidator`).

The validator core is embedded shallowly:

* `extract_filename_pattern` mirrors `JATSValidator.extract_filename_pattern`
  (Python `os.path.splitext` plus `re.match` of the leading
  letters-digits-digits-digits pattern).
* `validateParsed` mirrors the body of `JATSValidator.validate_xml_file`
  after a successful `ET.fromstring`; `validate_xml_file` adds the
  parse-failure branch, with the external XML parser abstracted as an
  `Except` input (the parser is library code, not part of the repository).
* XML documents are element trees; `ElementTree` queries such as
  `findall(".//tag")` and `find(".//tag")` become preorder traversals of
  proper descendants.
* Each Python regular expression used by the validator becomes a
  deterministic maximal-munch matcher.  This is faithful because in every
  pattern the character class of a greedy group is disjoint from the
  character that must follow it (letters vs `-`, digits vs `-`, `_`, `F`
  or end of string), so backtracking can never produce a different match.
* CPython iterates a `set` in an unspecified, hash-dependent order.  The
  two places the source iterates a freshly built set of strings
  (`set(duplicates)`) are canonicalised to first-occurrence order, and
  `list(set(expected_sequence) - set(numbers))` is canonicalised to the
  ascending order of `expected_sequence`; only the order, never the
  membership or the counts, depends on this choice.
-/

/-! ## Characters and Python string helpers -/

/-- Digit characters to a number, as Python `int` on a decimal string. -/
def digitsToNat (ds : List Char) : Nat :=
  ds.foldl (fun a c => 10 * a + (c.toNat - 48)) 0

/-- Python `os.path.basename`: the part after the last `/`. -/
def basenameChars (s : List Char) : List Char :=
  (s.reverse.takeWhile (· ≠ '/')).reverse

/-- The stem `os.path.splitext(base)[0]` for a path component `base`
containing no separator: drop the suffix starting at the last dot, unless
every character before that dot is itself a dot. -/
def stemOfBase (base : List Char) : List Char :=
  let extRev := base.reverse.takeWhile (· ≠ '.')
  if extRev.length = base.length then
    base
  else
    let pre := base.take (base.length - extRev.length - 1)
    if pre.any (· ≠ '.') then pre else base

/-- The stem `os.path.splitext(p)[0]` for a general path `p`. -/
def splitextStem (p : List Char) : List Char :=
  let baseRev := p.reverse.takeWhile (· ≠ '/')
  let dirRev := p.reverse.drop baseRev.length
  dirRev.reverse ++ stemOfBase baseRev.reverse

/-! ## The regular expressions of the validator -/

/-- Matcher for `re.match(r'([A-Za-z]+-\d+-\d+-\d+)', s)`: on success,
returns the captured group together with the remainder of the string. -/
def matchLDDD (s : List Char) : Option (List Char × List Char) :=
  let a := s.takeWhile Char.isAlpha
  match a, s.dropWhile Char.isAlpha with
  | [], _ => none
  | _, '-' :: r2 =>
    let d1 := r2.takeWhile Char.isDigit
    match d1, r2.dropWhile Char.isDigit with
    | [], _ => none
    | _, '-' :: r4 =>
      let d2 := r4.takeWhile Char.isDigit
      match d2, r4.dropWhile Char.isDigit with
      | [], _ => none
      | _, '-' :: r6 =>
        let d3 := r6.takeWhile Char.isDigit
        match d3 with
        | [] => none
        | _ =>
          some (a ++ '-' :: d1 ++ '-' :: d2 ++ '-' :: d3, r6.dropWhile Char.isDigit)
      | _, _ => none
    | _, _ => none
  | _, _ => none

/-- Matcher for `re.match(r'([A-Za-z]+-\d+-\d+-\d+)_F(\d+)', s)`:
returns the two captured groups. -/
def matchPatternF (s : List Char) : Option (List Char × List Char) :=
  match matchLDDD s with
  | some (g, '_' :: 'F' :: r) =>
    match r.takeWhile Char.isDigit with
    | [] => none
    | d => some (g, d)
  | _ => none

/-- Matcher for `re.match(r'([A-Za-z]+-\d+-\d+-\d+)_', s)`:
returns the captured group. -/
def matchPatternUnderscore (s : List Char) : Option (List Char) :=
  match matchLDDD s with
  | some (g, '_' :: _) => some g
  | _ => none

/-- Matcher for `re.search(r'_T(\d+)-F', s)`: the digit group of the
leftmost occurrence. -/
def searchTdF : List Char → Option (List Char)
  | [] => none
  | '_' :: rest =>
    match rest with
    | 'T' :: r2 =>
      (match r2.takeWhile Char.isDigit, r2.dropWhile Char.isDigit with
       | d :: ds, '-' :: 'F' :: _ => some (d :: ds)
       | _, _ => searchTdF rest)
    | _ => searchTdF rest
  | _ :: rest => searchTdF rest

/-- Matcher for `re.search(r'T(\d+)', s)`: the digit group at the
leftmost `T` that is followed by at least one digit. -/
def searchTnum : List Char → Option (List Char)
  | [] => none
  | 'T' :: rest =>
    (match rest.takeWhile Char.isDigit with
     | [] => searchTnum rest
     | d :: ds => some (d :: ds))
  | _ :: rest => searchTnum rest

/-- Matcher for `re.search(r'F(\d+)', s)`: the digit group at the
leftmost `F` that is followed by at least one digit. -/
def searchFnum : List Char → Option (List Char)
  | [] => none
  | 'F' :: rest =>
    (match rest.takeWhile Char.isDigit with
     | [] => searchFnum rest
     | d :: ds => some (d :: ds))
  | _ :: rest => searchFnum rest

/-- Matcher for `re.search(r'F(\d+)$', s)`: succeeds when the maximal
trailing digit run is nonempty and immediately preceded by `F`; the
captured group is that run. -/
def trailingFnum (s : List Char) : Option (List Char) :=
  let revDigits := s.reverse.takeWhile Char.isDigit
  match revDigits, s.reverse.drop revDigits.length with
  | [], _ => none
  | _ :: _, 'F' :: _ => some revDigits.reverse
  | _, _ => none

/-- Mirror of `JATSValidator.extract_filename_pattern`. -/
def extract_filename_pattern (xml_filename : String) : String :=
  let base := splitextStem xml_filename.data
  match matchLDDD base with
  | some (g, _) => String.mk g
  | none => String.mk base

/-! ## XML element trees and ElementTree queries -/

/-- An in-memory XML element, as produced by `ET.fromstring`: a tag, an
attribute map (namespaced attribute names in Clark notation, as
ElementTree stores them), and the child elements in document order. -/
structure XmlElem where
  tag : String
  attrs : List (String × String)
  children : List XmlElem

/-- The Clark-notation key ElementTree uses for `xlink:href`. -/
def xlinkHref : String := "\x7bhttp://www.w3.org/1999/xlink\x7dhref"

mutual
/-- An element followed by its proper descendants, in document order. -/
def elemPreorder : XmlElem → List XmlElem
  | ⟨t, a, cs⟩ => ⟨t, a, cs⟩ :: listPreorder cs
/-- Preorder of a forest, in document order. -/
def listPreorder : List XmlElem → List XmlElem
  | [] => []
  | c :: cs => elemPreorder c ++ listPreorder cs
end

/-- All proper descendants of an element, in document order. -/
def XmlElem.descendants (e : XmlElem) : List XmlElem :=
  listPreorder e.children

/-- ElementTree `e.findall('.//t')`: every proper descendant with tag `t`,
in document order. -/
def XmlElem.findallTag (e : XmlElem) (t : String) : List XmlElem :=
  e.descendants.filter (fun d => d.tag = t)

/-- ElementTree `e.find('.//t')`: the first proper descendant with tag
`t`, if any. -/
def XmlElem.findTag (e : XmlElem) (t : String) : Option XmlElem :=
  e.descendants.find? (fun d => d.tag = t)

/-- Python `element.get(key)`: attribute lookup. -/
def XmlElem.getAttr (e : XmlElem) (key : String) : Option String :=
  e.attrs.lookup key

/-- Python `element.get('id', 'unknown')`. -/
def XmlElem.idOrUnknown (e : XmlElem) : String :=
  (e.getAttr "id").getD "unknown"

/-! ## The report data model -/

/-- An entry of `issues['table_duplicates']`. -/
structure TableDupIssue where
  element_type : String
  element_id : String
  image_id : String
  count : Nat
deriving DecidableEq

/-- An entry of `issues['figure_duplicates']`. -/
structure FigureDupIssue where
  element_type : String
  image_id : String
  count : Nat
  figures : List String
deriving DecidableEq

/-- An entry of `issues['table_refs']`. -/
structure TableRefIssue where
  element_type : String
  element_id : String
  image_id : String
  referenced_table : String
deriving DecidableEq

/-- An entry of `issues['figure_refs']`. -/
structure FigureRefIssue where
  element_type : String
  element_id : String
  image_id : String
  referenced_fig : String
  actual_fig : String
deriving DecidableEq

/-- An entry of `issues['naming']`. -/
structure NamingIssue where
  element_type : String
  element_id : String
  image_id : String
  actual_pattern : String
  expected_pattern : String
deriving DecidableEq

/-- An entry of `issues['table_sequence']`. -/
structure TableSeqIssue where
  element_type : String
  element_id : String
  missing_numbers : List Nat
  actual_numbers : List Nat
deriving DecidableEq

/-- An entry of `issues['figure_sequence']` (no per-element id). -/
structure FigSeqIssue where
  element_type : String
  missing_numbers : List Nat
  actual_numbers : List Nat
deriving DecidableEq

/-- An entry of `issues['fig_id_duplicates']` or
`issues['table_id_duplicates']`. -/
structure IdDupIssue where
  id : String
  count : Nat
deriving DecidableEq

/-- A value of `table_details[tid]` or `figure_details[fid]`. -/
structure ElemDetails where
  image_count : Nat
  images : List String
  dtype : String
deriving DecidableEq

/-- The `validation_results` dictionary of `validate_xml_file`, with the
nine members of the nested `issues` dictionary inlined as fields. -/
structure ValidationResults where
  filename : String
  expected_pattern : String
  tables_found : Nat
  figures_found : Nat
  total_table_images : Nat
  total_figure_images : Nat
  table_duplicates : List TableDupIssue
  figure_duplicates : List FigureDupIssue
  table_refs : List TableRefIssue
  figure_refs : List FigureRefIssue
  naming : List NamingIssue
  table_sequence : List TableSeqIssue
  figure_sequence : List FigSeqIssue
  fig_id_duplicates : List IdDupIssue
  table_id_duplicates : List IdDupIssue
  table_details : List (String × ElemDetails)
  figure_details : List (String × ElemDetails)
  all_table_image_ids : List String
  all_figure_image_ids : List String
  all_fig_ids : List String
  all_table_ids : List String
  success : Bool
deriving DecidableEq

/-- The freshly initialised `validation_results` dictionary. -/
def initResults (filename expected : String) (tables figures : Nat) :
    ValidationResults where
  filename := filename
  expected_pattern := expected
  tables_found := tables
  figures_found := figures
  total_table_images := 0
  total_figure_images := 0
  table_duplicates := []
  figure_duplicates := []
  table_refs := []
  figure_refs := []
  naming := []
  table_sequence := []
  figure_sequence := []
  fig_id_duplicates := []
  table_id_duplicates := []
  table_details := []
  figure_details := []
  all_table_image_ids := []
  all_figure_image_ids := []
  all_fig_ids := []
  all_table_ids := []
  success := false

/-! ## The validation pipeline -/

/-- The image identifier derived from a graphic href:
`os.path.splitext(os.path.basename(href))[0]`. -/
def imageIdOfHref (href : String) : String :=
  String.mk (splitextStem (basenameChars href.data))

/-- Image identifiers of a table element: every nested `graphic` with a
non-empty `xlink:href`, in document order. -/
def imageIdsOfTable (tableEl : XmlElem) : List String :=
  (tableEl.descendants.filter (fun d => d.tag = "graphic")).filterMap fun g =>
    match g.getAttr xlinkHref with
    | none => none
    | some href => if href = "" then none else some (imageIdOfHref href)

/-- The `seen`/`duplicates` loop of the source: the elements already seen
at the moment they are revisited, in revisit order. -/
def dupScan (seen : List String) : List String → List String
  | [] => []
  | x :: xs => (if x ∈ seen then [x] else []) ++ dupScan (x :: seen) xs

/-- Helper for `dedupFirst`, skipping elements already emitted. -/
def dedupFirstAux (seen : List String) : List String → List String
  | [] => []
  | x :: xs =>
    if x ∈ seen then dedupFirstAux seen xs
    else x :: dedupFirstAux (x :: seen) xs

/-- Distinct elements of a list in first-occurrence order (the canonical
determinisation of iterating the Python set built from the list). -/
def dedupFirst (l : List String) : List String :=
  dedupFirstAux [] l

/-- Python dict assignment `d[k] = v`: replace in place if the key is
present, else append. -/
def upsert (k : String) (v : ElemDetails) :
    List (String × ElemDetails) → List (String × ElemDetails)
  | [] => [(k, v)]
  | (k', v') :: rest =>
    if k' = k then (k, v) :: rest else (k', v') :: upsert k v rest

/-- The `table_duplicates` record built for one duplicated image id. -/
def dupEntryFor (tid : String) (ids : List String) (d : String) : TableDupIssue :=
  { element_type := "table", element_id := tid, image_id := d, count := ids.count d }

/-- The `table_duplicates` entries one table contributes: one entry per
distinct duplicated image id, with its total occurrence count. -/
def tableDupEntries (tid : String) (ids : List String) : List TableDupIssue :=
  (dedupFirst (dupScan [] ids)).map (dupEntryFor tid ids)

/-- The `table_refs` entries one table contributes. -/
def tableRefEntries (tid : String) (ids : List String) : List TableRefIssue :=
  ids.filterMap fun img =>
    match searchTdF img.data with
    | none => none
    | some imgNum =>
      match searchTnum tid.data with
      | none => none
      | some tNum =>
        if imgNum ≠ tNum then
          some { element_type := "table", element_id := tid, image_id := img,
                 referenced_table := "T" ++ String.mk imgNum }
        else none

/-- The `table_sequence` entries one table contributes: the trailing
`F`-numbers of its image ids, sorted, must form a contiguous run. -/
def tableSeqEntries (tid : String) (ids : List String) : List TableSeqIssue :=
  let numbers := ids.filterMap fun i => (trailingFnum i.data).map digitsToNat
  match List.insertionSort (· ≤ ·) numbers with
  | [] => []
  | n0 :: rest =>
    let sorted := n0 :: rest
    let expected := List.range' n0 (rest.getLastD n0 + 1 - n0)
    if sorted = expected then []
    else [{ element_type := "table", element_id := tid,
            missing_numbers := expected.filter (fun n => decide (n ∉ sorted)),
            actual_numbers := sorted }]

/-- The body of the `for table_wrap in table_wraps` loop. -/
def processTableWrap (s : ValidationResults) (tw : XmlElem) : ValidationResults :=
  let table_id := tw.idOrUnknown
  let s := if table_id ≠ "unknown" then
      { s with all_table_ids := s.all_table_ids ++ [table_id] }
    else s
  match tw.findTag "table" with
  | none => s
  | some tableEl =>
    let image_ids := imageIdsOfTable tableEl
    let s := { s with
      table_details := upsert table_id
        { image_count := image_ids.length, images := image_ids, dtype := "table" }
        s.table_details
      total_table_images := s.total_table_images + image_ids.length
      all_table_image_ids := s.all_table_image_ids ++ image_ids }
    let s := { s with
      table_duplicates := s.table_duplicates ++ tableDupEntries table_id image_ids }
    let s := { s with
      table_refs := s.table_refs ++ tableRefEntries table_id image_ids }
    { s with
      table_sequence := s.table_sequence ++ tableSeqEntries table_id image_ids }

/-- The body of the `for fig in figs` loop. -/
def processFig (expected : String) (s : ValidationResults) (fig : XmlElem) :
    ValidationResults :=
  let fig_id := fig.idOrUnknown
  let s := if fig_id ≠ "unknown" then
      { s with all_fig_ids := s.all_fig_ids ++ [fig_id] }
    else s
  match fig.findTag "graphic" with
  | none => s
  | some g =>
    match g.getAttr xlinkHref with
    | none => s
    | some href =>
      if href = "" then s
      else
        let base := imageIdOfHref href
        let s := { s with
          figure_details := upsert fig_id
            { image_count := 1, images := [base], dtype := "figure" } s.figure_details
          total_figure_images := s.total_figure_images + 1
          all_figure_image_ids := s.all_figure_image_ids ++ [base] }
        match matchPatternF base.data with
        | none => s
        | some (imgPat, figNum) =>
          let s := if String.mk imgPat ≠ expected then
              { s with naming := s.naming ++
                [{ element_type := "figure", element_id := fig_id, image_id := base,
                   actual_pattern := String.mk imgPat, expected_pattern := expected }] }
            else s
          match searchFnum fig_id.data with
          | none => s
          | some actualNum =>
            if actualNum ≠ figNum then
              { s with figure_refs := s.figure_refs ++
                [{ element_type := "figure", element_id := fig_id, image_id := base,
                   referenced_fig := "F" ++ String.mk figNum,
                   actual_fig := "F" ++ String.mk actualNum }] }
            else s

/-- The `figure_duplicates` pass over `all_figure_image_ids`. -/
def figureDupEntries (allIds : List String)
    (figDetails : List (String × ElemDetails)) : List FigureDupIssue :=
  (dedupFirst (dupScan [] allIds)).map fun d =>
    { element_type := "figure", image_id := d, count := allIds.count d,
      figures := ((figDetails.filter fun p => p.2.images.contains d).map fun p => p.1) }

/-- The table half of the `naming` category: the pass over
`all_table_image_ids`. -/
def tableNamingEntries (expected : String) (allImgs : List String)
    (tDetails : List (String × ElemDetails)) : List NamingIssue :=
  allImgs.filterMap fun img =>
    match matchPatternUnderscore img.data with
    | none => none
    | some g =>
      if String.mk g ≠ expected then
        let found := (tDetails.find? fun p => p.2.images.contains img).map fun p => p.1
        some { element_type := "table",
               element_id := match found with
                 | some tid => if tid = "" then "unknown" else tid
                 | none => "unknown",
               image_id := img, actual_pattern := String.mk g,
               expected_pattern := expected }
      else none

/-- The id-duplicate passes: one entry per distinct id occurring more
than once, in first-occurrence order (Python dict insertion order). -/
def idDupEntries (ids : List String) : List IdDupIssue :=
  (dedupFirst ids).filterMap fun i =>
    if 1 < ids.count i then some { id := i, count := ids.count i } else none

/-- The `figure_sequence` pass over the numbers found in `all_fig_ids`. -/
def figSeqEntries (allFigIds : List String) : List FigSeqIssue :=
  let numbers := allFigIds.filterMap fun i => (searchFnum i.data).map digitsToNat
  match List.insertionSort (· ≤ ·) numbers with
  | [] => []
  | n0 :: rest =>
    let sorted := n0 :: rest
    let expected := List.range' n0 (rest.getLastD n0 + 1 - n0)
    if sorted = expected then []
    else [{ element_type := "figures",
            missing_numbers := expected.filter (fun n => decide (n ∉ sorted)),
            actual_numbers := sorted }]

/-- Python `any(len(issues) > 0 for issues in validation_results['issues'].values())`. -/
def hasIssues (s : ValidationResults) : Bool :=
  !s.table_duplicates.isEmpty || !s.figure_duplicates.isEmpty ||
  !s.table_refs.isEmpty || !s.figure_refs.isEmpty || !s.naming.isEmpty ||
  !s.table_sequence.isEmpty || !s.figure_sequence.isEmpty ||
  !s.fig_id_duplicates.isEmpty || !s.table_id_duplicates.isEmpty

/-- The final `validation_results['success'] = not has_issues` assignment. -/
def finalizeResults (s : ValidationResults) : ValidationResults :=
  { s with success := !hasIssues s }

/-- The two element-walking loops of `validate_xml_file`: tables first,
then figures, starting from the freshly initialised results. -/
def elementsPass (root : XmlElem) (filename : String) : ValidationResults :=
  let expected := extract_filename_pattern filename
  let table_wraps := root.findallTag "table-wrap"
  let figs := root.findallTag "fig"
  let s := initResults filename expected table_wraps.length figs.length
  let s := table_wraps.foldl processTableWrap s
  figs.foldl (processFig expected) s

/-- The whole-document passes that follow the two loops, and the final
`success` assignment. -/
def crossChecksPass (expected : String) (s : ValidationResults) : ValidationResults :=
  let s := { s with figure_duplicates :=
    s.figure_duplicates ++ figureDupEntries s.all_figure_image_ids s.figure_details }
  let s := { s with naming :=
    s.naming ++ tableNamingEntries expected s.all_table_image_ids s.table_details }
  let s := { s with fig_id_duplicates :=
    s.fig_id_duplicates ++ idDupEntries s.all_fig_ids }
  let s := { s with table_id_duplicates :=
    s.table_id_duplicates ++ idDupEntries s.all_table_ids }
  let s := { s with figure_sequence :=
    s.figure_sequence ++ figSeqEntries s.all_fig_ids }
  finalizeResults s

/-- The body of `JATSValidator.validate_xml_file` after a successful
parse. -/
def validateParsed (root : XmlElem) (filename : String) : ValidationResults :=
  crossChecksPass (extract_filename_pattern filename) (elementsPass root filename)

/-- The value `validate_xml_file` returns: a full report, or the
degraded `success=False` / `message` shape produced on an exception. -/
inductive Report where
  | ok (results : ValidationResults)
  | failure (message : String)
deriving DecidableEq

/-- The `success` entry of either report shape (`False` in the
degraded shape). -/
def Report.getSuccess : Report → Bool
  | .ok r => r.success
  | .failure _ => false

/-- Mirror of `JATSValidator.validate_xml_file`.  The external XML
parser (`ET.fromstring`, library code outside this repository) is
abstracted as the `Except` argument: `.ok root` is a successful parse,
`.error diag` a `ParseError` with diagnostic `diag`. -/
def validate_xml_file (parsed : Except String XmlElem) (filename : String) :
    Report :=
  match parsed with
  | .error diag => .failure ("XML parsing error: " ++ diag)
  | .ok root => .ok (validateParsed root filename)

/-! ## Basic facts about the pipeline -/

lemma finalizeResults_success_iff (s : ValidationResults) :
    (finalizeResults s).success = true ↔
      ((finalizeResults s).table_duplicates = [] ∧
       (finalizeResults s).figure_duplicates = [] ∧
       (finalizeResults s).table_refs = [] ∧
       (finalizeResults s).figure_refs = [] ∧
       (finalizeResults s).naming = [] ∧
       (finalizeResults s).table_sequence = [] ∧
       (finalizeResults s).figure_sequence = [] ∧
       (finalizeResults s).fig_id_duplicates = [] ∧
       (finalizeResults s).table_id_duplicates = []) := by
  simp [finalizeResults, hasIssues, List.isEmpty_iff, and_assoc]

/-- C1: for every successfully parsed document, the `success` field of the
report is true exactly when all nine issue-category sequences are empty. -/
theorem claim_C1_success_iff_all_categories_empty (root : XmlElem) (fn : String) :
    ((validateParsed root fn).success = true) ↔
      ((validateParsed root fn).table_duplicates = [] ∧
       (validateParsed root fn).figure_duplicates = [] ∧
       (validateParsed root fn).table_refs = [] ∧
       (validateParsed root fn).figure_refs = [] ∧
       (validateParsed root fn).naming = [] ∧
       (validateParsed root fn).table_sequence = [] ∧
       (validateParsed root fn).figure_sequence = [] ∧
       (validateParsed root fn).fig_id_duplicates = [] ∧
       (validateParsed root fn).table_id_duplicates = []) :=
  finalizeResults_success_iff _

/-- C7: the validator is a pure function of the parse result and the
filename, so identical inputs give identical reports, field for field. -/
theorem claim_C7_deterministic (p p' : Except String XmlElem) (f f' : String)
    (hp : p = p') (hf : f = f') :
    validate_xml_file p f = validate_xml_file p' f' := by
  subst hp; subst hf; rfl

theorem claim_C7_witness :
    ((Except.error "junk" : Except String XmlElem) = Except.error "junk") ∧
      validate_xml_file (Except.error "junk") "a.xml" =
        validate_xml_file (Except.error "junk") "a.xml" :=
  ⟨rfl, claim_C7_deterministic _ _ _ _ rfl rfl⟩

/-- C8: on a parse failure the validator returns the degraded shape that
carries only the `ParseError` message (with the parser diagnostic
embedded) and reads as `success = false`; no validation stage runs. -/
theorem claim_C8_parse_failure (diag fn : String) :
    validate_xml_file (Except.error diag) fn =
        Report.failure ("XML parsing error: " ++ diag) ∧
      (validate_xml_file (Except.error diag) fn).getSuccess = false :=
  ⟨rfl, rfl⟩

/-- The document of the C6 end-to-end scenario: one figure `F1` whose
graphic href is `XYZ-1-1-1_F1.tif`. -/
def docC6 : XmlElem :=
  ⟨"article", [],
    [⟨"fig", [("id", "F1")],
      [⟨"graphic", [(xlinkHref, "XYZ-1-1-1_F1.tif")], []⟩]⟩]⟩

/-- C6: validating `docC6` as file `JCS-41-4-694.xml` yields exactly one
naming issue, with the actual and expected patterns as claimed, and no
`figure_refs` issue, since the F-number in the image name matches the
figure id. -/
theorem claim_C6_naming_end_to_end :
    (validateParsed docC6 "JCS-41-4-694.xml").naming =
      [{ element_type := "figure", element_id := "F1", image_id := "XYZ-1-1-1_F1",
         actual_pattern := "XYZ-1-1-1", expected_pattern := "JCS-41-4-694" }] ∧
    (validateParsed docC6 "JCS-41-4-694.xml").figure_refs = [] := by
  decide

/-! ## C9: a table wrapper without a nested table -/

/-- Two table wrappers sharing id `T1`, neither containing a table. -/
def docC9 : XmlElem :=
  ⟨"article", [],
    [⟨"table-wrap", [("id", "T1")], []⟩, ⟨"table-wrap", [("id", "T1")], []⟩]⟩

/-- C9 counterexample: in `docC9` every table wrapper lacks a nested
table element, yet the recorded ids still raise a `table_id_duplicates`
issue, so a table-less wrapper is not free of issue records in every
category. -/
theorem claim_C9_counterexample :
    (∀ tw ∈ docC9.findallTag "table-wrap", (tw.findTag "table").isNone = true) ∧
    (validateParsed docC9 "doc.xml").table_id_duplicates = [{ id := "T1", count := 2 }] ∧
    (validateParsed docC9 "doc.xml").success = false := by
  decide

/-- C9 amended: a table wrapper without a nested table element is skipped
for image extraction and contributes nothing to the per-table categories
(`table_duplicates`, `table_refs`, `table_sequence`) nor to `naming` or
the detail map; its only effect is having its id recorded (through which
it may still feed `table_id_duplicates`). -/
theorem claim_C9_tableless_wrapper_skipped (s : ValidationResults) (tw : XmlElem)
    (h : (tw.findTag "table").isNone = true) :
    (processTableWrap s tw).total_table_images = s.total_table_images ∧
    (processTableWrap s tw).all_table_image_ids = s.all_table_image_ids ∧
    (processTableWrap s tw).table_details = s.table_details ∧
    (processTableWrap s tw).table_duplicates = s.table_duplicates ∧
    (processTableWrap s tw).table_refs = s.table_refs ∧
    (processTableWrap s tw).table_sequence = s.table_sequence ∧
    (processTableWrap s tw).naming = s.naming ∧
    (processTableWrap s tw).all_table_ids =
      s.all_table_ids ++
        (if tw.idOrUnknown ≠ "unknown" then [tw.idOrUnknown] else []) := by
  have hnone : tw.findTag "table" = none := Option.isNone_iff_eq_none.mp h
  unfold processTableWrap
  rw [hnone]
  by_cases hid : tw.idOrUnknown = "unknown" <;> simp [hid]

theorem claim_C9_witness :
    (((⟨"table-wrap", [("id", "T1")], []⟩ : XmlElem).findTag "table").isNone = true) ∧
    (processTableWrap (initResults "doc.xml" "doc" 1 0)
        ⟨"table-wrap", [("id", "T1")], []⟩).table_duplicates =
      (initResults "doc.xml" "doc" 1 0).table_duplicates ∧
    (processTableWrap (initResults "doc.xml" "doc" 1 0)
        ⟨"table-wrap", [("id", "T1")], []⟩).all_table_image_ids =
      (initResults "doc.xml" "doc" 1 0).all_table_image_ids :=
  ⟨by decide,
   (claim_C9_tableless_wrapper_skipped _ _ (by decide)).2.2.2.1,
   (claim_C9_tableless_wrapper_skipped _ _ (by decide)).2.1⟩

/-! ## C3: image totals equal the lengths of the flat id sequences -/

lemma processTableWrap_table_count (s : ValidationResults) (tw : XmlElem)
    (h : s.total_table_images = s.all_table_image_ids.length) :
    (processTableWrap s tw).total_table_images =
      (processTableWrap s tw).all_table_image_ids.length := by
  unfold processTableWrap
  by_cases hid : tw.idOrUnknown = "unknown" <;>
    cases hfind : tw.findTag "table" <;> simp [hid, hfind, h]

lemma processTableWrap_preserves_fig_fields (s : ValidationResults) (tw : XmlElem) :
    (processTableWrap s tw).total_figure_images = s.total_figure_images ∧
    (processTableWrap s tw).all_figure_image_ids = s.all_figure_image_ids := by
  unfold processTableWrap
  by_cases hid : tw.idOrUnknown = "unknown" <;>
    cases hfind : tw.findTag "table" <;> simp [hid, hfind]

lemma processFig_preserves_table_fields (e : String) (s : ValidationResults)
    (f : XmlElem) :
    (processFig e s f).total_table_images = s.total_table_images ∧
    (processFig e s f).all_table_image_ids = s.all_table_image_ids := by
  unfold processFig
  by_cases hid : f.idOrUnknown = "unknown" <;> simp [hid] <;> repeat' split
  all_goals simp

lemma processFig_fig_count (e : String) (s : ValidationResults) (f : XmlElem)
    (h : s.total_figure_images = s.all_figure_image_ids.length) :
    (processFig e s f).total_figure_images =
      (processFig e s f).all_figure_image_ids.length := by
  unfold processFig
  by_cases hid : f.idOrUnknown = "unknown" <;> simp [hid] <;> repeat' split
  all_goals simp [h]

lemma foldl_processTableWrap_table_count (l : List XmlElem) :
    ∀ s : ValidationResults, s.total_table_images = s.all_table_image_ids.length →
    (l.foldl processTableWrap s).total_table_images =
      (l.foldl processTableWrap s).all_table_image_ids.length := by
  induction l with
  | nil => exact fun s h => h
  | cons w ws ih => exact fun s h => ih _ (processTableWrap_table_count s w h)

lemma foldl_processTableWrap_preserves_fig_fields (l : List XmlElem) :
    ∀ s : ValidationResults,
    (l.foldl processTableWrap s).total_figure_images = s.total_figure_images ∧
    (l.foldl processTableWrap s).all_figure_image_ids = s.all_figure_image_ids := by
  induction l with
  | nil => exact fun s => ⟨rfl, rfl⟩
  | cons w ws ih =>
    intro s
    obtain ⟨h1, h2⟩ := ih (processTableWrap s w)
    obtain ⟨g1, g2⟩ := processTableWrap_preserves_fig_fields s w
    exact ⟨h1.trans g1, h2.trans g2⟩

lemma foldl_processFig_preserves_table_fields (e : String) (l : List XmlElem) :
    ∀ s : ValidationResults,
    (l.foldl (processFig e) s).total_table_images = s.total_table_images ∧
    (l.foldl (processFig e) s).all_table_image_ids = s.all_table_image_ids := by
  induction l with
  | nil => exact fun s => ⟨rfl, rfl⟩
  | cons f fs ih =>
    intro s
    obtain ⟨h1, h2⟩ := ih (processFig e s f)
    obtain ⟨g1, g2⟩ := processFig_preserves_table_fields e s f
    exact ⟨h1.trans g1, h2.trans g2⟩

lemma foldl_processFig_fig_count (e : String) (l : List XmlElem) :
    ∀ s : ValidationResults, s.total_figure_images = s.all_figure_image_ids.length →
    (l.foldl (processFig e) s).total_figure_images =
      (l.foldl (processFig e) s).all_figure_image_ids.length := by
  induction l with
  | nil => exact fun s h => h
  | cons f fs ih => exact fun s h => ih _ (processFig_fig_count e s f h)

lemma crossChecksPass_preserves_image_fields (e : String) (s : ValidationResults) :
    (crossChecksPass e s).total_table_images = s.total_table_images ∧
    (crossChecksPass e s).all_table_image_ids = s.all_table_image_ids ∧
    (crossChecksPass e s).total_figure_images = s.total_figure_images ∧
    (crossChecksPass e s).all_figure_image_ids = s.all_figure_image_ids :=
  ⟨rfl, rfl, rfl, rfl⟩

lemma elementsPass_table_count (root : XmlElem) (fn : String) :
    (elementsPass root fn).total_table_images =
      (elementsPass root fn).all_table_image_ids.length := by
  have hrfl : elementsPass root fn =
      (root.findallTag "fig").foldl (processFig (extract_filename_pattern fn))
        ((root.findallTag "table-wrap").foldl processTableWrap
          (initResults fn (extract_filename_pattern fn)
            (root.findallTag "table-wrap").length (root.findallTag "fig").length)) := rfl
  rw [hrfl]
  obtain ⟨h1, h2⟩ := foldl_processFig_preserves_table_fields
    (extract_filename_pattern fn) (root.findallTag "fig")
    ((root.findallTag "table-wrap").foldl processTableWrap
      (initResults fn (extract_filename_pattern fn)
        (root.findallTag "table-wrap").length (root.findallTag "fig").length))
  rw [h1, h2]
  exact foldl_processTableWrap_table_count _ _ rfl

lemma elementsPass_fig_count (root : XmlElem) (fn : String) :
    (elementsPass root fn).total_figure_images =
      (elementsPass root fn).all_figure_image_ids.length := by
  have hrfl : elementsPass root fn =
      (root.findallTag "fig").foldl (processFig (extract_filename_pattern fn))
        ((root.findallTag "table-wrap").foldl processTableWrap
          (initResults fn (extract_filename_pattern fn)
            (root.findallTag "table-wrap").length (root.findallTag "fig").length)) := rfl
  rw [hrfl]
  apply foldl_processFig_fig_count
  obtain ⟨h1, h2⟩ := foldl_processTableWrap_preserves_fig_fields
    (root.findallTag "table-wrap")
    (initResults fn (extract_filename_pattern fn)
      (root.findallTag "table-wrap").length (root.findallTag "fig").length)
  rw [h1, h2]
  rfl

/-- C3: in every successfully produced report, `total_table_images` is
the length of `all_table_image_ids` and `total_figure_images` is the
length of `all_figure_image_ids`. -/
theorem claim_C3_totals_equal_lengths (root : XmlElem) (fn : String) :
    (validateParsed root fn).total_table_images =
      (validateParsed root fn).all_table_image_ids.length ∧
    (validateParsed root fn).total_figure_images =
      (validateParsed root fn).all_figure_image_ids.length := by
  obtain ⟨h1, h2, h3, h4⟩ := crossChecksPass_preserves_image_fields
    (extract_filename_pattern fn) (elementsPass root fn)
  have hv : validateParsed root fn =
      crossChecksPass (extract_filename_pattern fn) (elementsPass root fn) := rfl
  rw [hv, h1, h2, h3, h4]
  exact ⟨elementsPass_table_count root fn, elementsPass_fig_count root fn⟩

/-! ## C4: one duplicate entry per distinct duplicated image id -/

lemma mem_dupScan (x : String) : ∀ (l seen : List String),
    x ∈ dupScan seen l ↔ (x ∈ seen ∧ x ∈ l) ∨ 2 ≤ l.count x
  | [], seen => by simp [dupScan]
  | y :: ys, seen => by
    have ih := mem_dupScan x ys (y :: seen)
    have hcount : (y :: ys).count x = ys.count x + (if y == x then 1 else 0) :=
      List.count_cons x y ys
    rw [show dupScan seen (y :: ys) =
        (if y ∈ seen then [y] else []) ++ dupScan (y :: seen) ys from rfl]
    constructor
    · intro hmem
      rcases List.mem_append.mp hmem with hh | ht
      · have hys : y ∈ seen := by
          by_contra hns
          simp [hns] at hh
        have hxy : x = y := by simpa [hys] using hh
        subst hxy
        exact Or.inl ⟨hys, List.mem_cons_self _ _⟩
      · rcases ih.mp ht with ⟨hseen, hys⟩ | hcnt
        · rcases List.mem_cons.mp hseen with hxy | hseen2
          · subst hxy
            have h1 : 0 < List.count x ys := List.count_pos_iff.mpr hys
            refine Or.inr ?_
            rw [hcount]
            simp only [beq_self_eq_true, if_true]
            omega
          · exact Or.inl ⟨hseen2, List.mem_cons_of_mem _ hys⟩
        · refine Or.inr ?_
          rw [hcount]
          have h2 : 2 ≤ ys.count x := hcnt
          split <;> omega
    · intro h
      rcases h with ⟨hseen, hmem⟩ | hcnt
      · rcases List.mem_cons.mp hmem with hxy | hys
        · subst hxy
          exact List.mem_append.mpr (Or.inl (by simp [hseen]))
        · exact List.mem_append.mpr (Or.inr (ih.mpr (Or.inl
            ⟨List.mem_cons_of_mem _ hseen, hys⟩)))
      · by_cases hxy : x = y
        · subst hxy
          have h1 : 1 ≤ List.count x ys := by
            rw [hcount] at hcnt
            simp only [beq_self_eq_true, if_true] at hcnt
            omega
          have hys : x ∈ ys := List.count_pos_iff.mp (by omega)
          exact List.mem_append.mpr (Or.inr (ih.mpr (Or.inl
            ⟨List.mem_cons_self _ _, hys⟩)))
        · have hyx : (y == x) = false := beq_eq_false_iff_ne.mpr (fun h => hxy h.symm)
          have h2 : 2 ≤ List.count x ys := by
            rw [hcount, hyx] at hcnt
            simpa using hcnt
          exact List.mem_append.mpr (Or.inr (ih.mpr (Or.inr h2)))

lemma mem_dedupFirstAux (x : String) : ∀ (l seen : List String),
    x ∈ dedupFirstAux seen l ↔ x ∉ seen ∧ x ∈ l
  | [], seen => by simp [dedupFirstAux]
  | y :: ys, seen => by
    have ih1 := mem_dedupFirstAux x ys seen
    have ih2 := mem_dedupFirstAux x ys (y :: seen)
    by_cases hs : y ∈ seen
    · rw [show dedupFirstAux seen (y :: ys) = dedupFirstAux seen ys by
        simp [dedupFirstAux, hs]]
      rw [ih1]
      by_cases hxy : x = y
      · subst hxy; simp [hs]
      · simp [List.mem_cons, hxy]
    · rw [show dedupFirstAux seen (y :: ys) = y :: dedupFirstAux (y :: seen) ys by
        simp [dedupFirstAux, hs]]
      by_cases hxy : x = y
      · subst hxy; simp [hs]
      · simp [List.mem_cons, hxy, ih2]

lemma nodup_dedupFirstAux : ∀ (l seen : List String), (dedupFirstAux seen l).Nodup
  | [], _ => by simp [dedupFirstAux]
  | y :: ys, seen => by
    by_cases hs : y ∈ seen
    · simpa [dedupFirstAux, hs] using nodup_dedupFirstAux ys seen
    · rw [show dedupFirstAux seen (y :: ys) = y :: dedupFirstAux (y :: seen) ys by
        simp [dedupFirstAux, hs]]
      refine List.nodup_cons.mpr ⟨?_, nodup_dedupFirstAux ys (y :: seen)⟩
      intro hmem
      exact ((mem_dedupFirstAux y ys (y :: seen)).mp hmem).1 (List.mem_cons_self _ _)

lemma filter_map_dup_entries (tid : String) (ids : List String) (x : String)
    (l : List String) (hnd : l.Nodup) (hx : x ∈ l) :
    ((l.map (dupEntryFor tid ids)).filter (fun e => e.image_id == x)) =
      [dupEntryFor tid ids x] := by
  induction l with
  | nil => cases hx
  | cons d ds ih =>
    obtain ⟨hd, hnds⟩ := List.nodup_cons.mp hnd
    rcases List.mem_cons.mp hx with hdx | hxs
    · subst hdx
      have hhead : ((dupEntryFor tid ids x).image_id == x) = true := by
        simp [dupEntryFor]
      have htail : ((ds.map (dupEntryFor tid ids)).filter
          (fun e => e.image_id == x)) = [] := by
        rw [List.filter_eq_nil_iff]
        intro e he
        obtain ⟨d', hd', rfl⟩ := List.mem_map.mp he
        simp only [dupEntryFor, beq_iff_eq]
        exact fun h => hd (h ▸ hd')
      rw [List.map_cons, List.filter_cons]
      simp only [hhead, if_true, htail]
    · have hdx : ((dupEntryFor tid ids d).image_id == x) = false := by
        simp only [dupEntryFor, beq_eq_false_iff_ne]
        exact fun h => hd (h ▸ hxs)
      rw [List.map_cons, List.filter_cons]
      simp only [hdx, Bool.false_eq_true, if_false]
      exact ih hnds hxs

/-- The C4 scenario: a table wrapper whose table holds image ids
`A`, `B`, `A`. -/
def twC4 : XmlElem :=
  ⟨"table-wrap", [("id", "T1")],
    [⟨"table", [],
      [⟨"graphic", [(xlinkHref, "A.tif")], []⟩,
       ⟨"graphic", [(xlinkHref, "B.tif")], []⟩,
       ⟨"graphic", [(xlinkHref, "A.tif")], []⟩]⟩]⟩

/-- C4: each image id occurring at least twice in a table contributes
exactly one `table_duplicates` entry, carrying its total occurrence
count; only duplicated ids get entries; and in the `[A, B, A]` scenario
the single entry has count 2 while `total_table_images` counts all
three occurrences. -/
theorem claim_C4_one_entry_per_duplicate (tid : String) (ids : List String)
    (x : String) (h : 2 ≤ ids.count x) :
    ((tableDupEntries tid ids).filter (fun e => e.image_id == x)) =
      [{ element_type := "table", element_id := tid, image_id := x,
         count := ids.count x }] ∧
    (∀ e ∈ tableDupEntries tid ids, 2 ≤ ids.count e.image_id) ∧
    (processTableWrap (initResults "f.xml" "f" 1 0) twC4).table_duplicates =
      [{ element_type := "table", element_id := "T1", image_id := "A", count := 2 }] ∧
    (processTableWrap (initResults "f.xml" "f" 1 0) twC4).total_table_images = 3 := by
  refine ⟨?_, ?_, by decide, by decide⟩
  · apply filter_map_dup_entries tid ids x _ (nodup_dedupFirstAux _ _)
    rw [mem_dedupFirstAux]
    refine ⟨by simp, ?_⟩
    rw [mem_dupScan]
    exact Or.inr h
  · intro e he
    obtain ⟨d, hd, rfl⟩ := List.mem_map.mp he
    have h1 := ((mem_dedupFirstAux d _ _).mp hd).2
    have h2 := (mem_dupScan d ids []).mp h1
    simpa [dupEntryFor] using h2

theorem claim_C4_witness :
    2 ≤ (["A", "B", "A"] : List String).count "A" ∧
    ((tableDupEntries "T1" ["A", "B", "A"]).filter (fun e => e.image_id == "A")) =
      [{ element_type := "table", element_id := "T1", image_id := "A",
         count := (["A", "B", "A"] : List String).count "A" }] :=
  ⟨by decide, (claim_C4_one_entry_per_duplicate "T1" ["A", "B", "A"] "A" (by decide)).1⟩

/-! ## C5: table image sequence gaps -/

lemma getLastD_mem_cons : ∀ (rest : List Nat) (n0 : Nat), rest.getLastD n0 ∈ n0 :: rest
  | [], _ => List.mem_singleton.mpr rfl
  | r :: rs, n0 => by
    have ih := getLastD_mem_cons rs r
    rw [List.getLastD_cons]
    exact List.mem_cons_of_mem _ ih

lemma mem_le_getLastD : ∀ (l : List Nat) (d : Nat), List.Sorted (· ≤ ·) l →
    ∀ x ∈ l, x ≤ l.getLastD d
  | [], _, _, x, hx => absurd hx (List.not_mem_nil x)
  | a :: l, d, hs, x, hx => by
    rw [List.getLastD_cons]
    rcases List.mem_cons.mp hx with rfl | hxl
    · rcases List.mem_cons.mp (getLastD_mem_cons l x) with hh | hh
      · rw [hh]
      · exact List.rel_of_sorted_cons hs _ hh
    · cases l with
      | nil => cases hxl
      | cons b lb =>
        exact mem_le_getLastD (b :: lb) a (List.Sorted.of_cons hs) x hxl

/-- C5: the numbers captured by the trailing `F(\d+)$` pattern are, per
table, sorted and compared to the contiguous run from their minimum to
their maximum; at most one `table_sequence` entry ever exists, every
entry carries the table id, the sorted actual numbers and, in ascending
order, exactly the unobserved numbers of the observed span; and whenever
a gap exists (some number between two observed numbers is not observed),
exactly one entry is emitted and contains that number among its
`missing_numbers`; the `{1,2,4}` scenario yields `missing_numbers = [3]`,
`actual_numbers = [1,2,4]`. -/
theorem claim_C5_sequence_gap_entry (tid : String) (ids : List String) :
    (∀ e ∈ tableSeqEntries tid ids,
      e.element_type = "table" ∧
      e.element_id = tid ∧
      e.actual_numbers = List.insertionSort (· ≤ ·)
        (ids.filterMap fun i => (trailingFnum i.data).map digitsToNat) ∧
      e.actual_numbers.Sorted (· ≤ ·) ∧
      e.missing_numbers.Sorted (· < ·) ∧
      (∀ n, n ∈ e.missing_numbers ↔
        (e.actual_numbers.headD 0 ≤ n ∧ n ≤ e.actual_numbers.getLastD 0 ∧
         n ∉ e.actual_numbers))) ∧
    (tableSeqEntries tid ids).length ≤ 1 ∧
    (∀ n m M : Nat,
      m ∈ (ids.filterMap fun i => (trailingFnum i.data).map digitsToNat) →
      M ∈ (ids.filterMap fun i => (trailingFnum i.data).map digitsToNat) →
      m ≤ n → n ≤ M →
      n ∉ (ids.filterMap fun i => (trailingFnum i.data).map digitsToNat) →
      ∃ e, tableSeqEntries tid ids = [e] ∧ n ∈ e.missing_numbers) ∧
    tableSeqEntries "T1" ["X_F1", "X_F2", "X_F4"] =
      [{ element_type := "table", element_id := "T1",
         missing_numbers := [3], actual_numbers := [1, 2, 4] }] := by
  refine ⟨?_, ?_, ?_, by decide⟩
  · intro e h
    simp only [tableSeqEntries] at h
    split at h
    · simp at h
    · next n0 rest heq =>
      split at h
      · simp at h
      · simp only [List.mem_singleton] at h
        subst h
        have hsorted : List.Sorted (· ≤ ·) (n0 :: rest) :=
          heq ▸ List.sorted_insertionSort (· ≤ ·) _
        have hle : n0 ≤ rest.getLastD n0 := by
          rcases List.mem_cons.mp (getLastD_mem_cons rest n0) with hh | hh
          · rw [hh]
          · exact List.rel_of_sorted_cons hsorted _ hh
        refine ⟨rfl, rfl, heq.symm, ?_, ?_, ?_⟩
        · exact heq ▸ List.sorted_insertionSort (· ≤ ·) _
        · exact (List.pairwise_lt_range' _ _).filter _
        · intro n
          simp only [List.mem_filter, List.mem_range'_1, decide_eq_true_eq,
            List.headD_cons, List.getLastD_cons]
          constructor
          · rintro ⟨⟨h1, h2⟩, h3⟩
            refine ⟨h1, ?_, h3⟩
            have := hle
            omega
          · rintro ⟨h1, h2, h3⟩
            refine ⟨⟨h1, ?_⟩, h3⟩
            have := hle
            omega
  · simp only [tableSeqEntries]
    split
    · simp
    · split <;> simp
  · intro n m M hm hM hmn hnM hn
    have hperm := List.perm_insertionSort (· ≤ ·)
      (ids.filterMap fun i => (trailingFnum i.data).map digitsToNat)
    simp only [tableSeqEntries]
    split
    · next heq =>
      have hmem : m ∈ List.insertionSort (· ≤ ·)
          (ids.filterMap fun i => (trailingFnum i.data).map digitsToNat) :=
        hperm.mem_iff.mpr hm
      rw [heq] at hmem
      cases hmem
    · next n0 rest heq =>
      have hsorted : List.Sorted (· ≤ ·) (n0 :: rest) :=
        heq ▸ List.sorted_insertionSort (· ≤ ·) _
      have hmem_m : m ∈ n0 :: rest := heq ▸ hperm.mem_iff.mpr hm
      have hmem_M : M ∈ n0 :: rest := heq ▸ hperm.mem_iff.mpr hM
      have hn' : n ∉ n0 :: rest := by
        intro hc
        exact hn (hperm.mem_iff.mp (heq.symm ▸ hc))
      have hmin : n0 ≤ m := by
        rcases List.mem_cons.mp hmem_m with rfl | hh
        · exact le_refl _
        · exact List.rel_of_sorted_cons hsorted _ hh
      have hmax : M ≤ rest.getLastD n0 := by
        have hy := mem_le_getLastD (n0 :: rest) 0 hsorted M hmem_M
        rwa [List.getLastD_cons] at hy
      have hne2 : (n0 :: rest) ≠ List.range' n0 (rest.getLastD n0 + 1 - n0) := by
        intro hcontra
        apply hn'
        rw [hcontra, List.mem_range'_1]
        omega
      rw [if_neg hne2]
      refine ⟨_, rfl, ?_⟩
      rw [List.mem_filter]
      refine ⟨?_, ?_⟩
      · rw [List.mem_range'_1]
        omega
      · exact decide_eq_true hn'

theorem claim_C5_witness :
    (1 ∈ (["X_F1", "X_F2", "X_F4"].filterMap
      fun i => (trailingFnum i.data).map digitsToNat)) ∧
    (3 ∉ (["X_F1", "X_F2", "X_F4"].filterMap
      fun i => (trailingFnum i.data).map digitsToNat)) ∧
    ∃ e, tableSeqEntries "T1" ["X_F1", "X_F2", "X_F4"] = [e] ∧
      3 ∈ e.missing_numbers :=
  ⟨by decide, by decide,
   (claim_C5_sequence_gap_entry "T1" ["X_F1", "X_F2", "X_F4"]).2.2.1 3 1 4
     (by decide) (by decide) (by decide) (by decide) (by decide)⟩

/-! ## C10: an id attribute equal to the literal string `unknown` -/

lemma processTableWrap_misc_fields (s : ValidationResults) (tw : XmlElem) :
    (processTableWrap s tw).table_id_duplicates = s.table_id_duplicates ∧
    (processTableWrap s tw).fig_id_duplicates = s.fig_id_duplicates ∧
    (processTableWrap s tw).all_fig_ids = s.all_fig_ids := by
  unfold processTableWrap
  by_cases hid : tw.idOrUnknown = "unknown" <;>
    cases hfind : tw.findTag "table" <;> simp [hid, hfind]

lemma processFig_misc_fields (e : String) (s : ValidationResults) (f : XmlElem) :
    (processFig e s f).table_id_duplicates = s.table_id_duplicates ∧
    (processFig e s f).fig_id_duplicates = s.fig_id_duplicates ∧
    (processFig e s f).all_table_ids = s.all_table_ids := by
  unfold processFig
  by_cases hid : f.idOrUnknown = "unknown" <;> simp [hid] <;> repeat' split
  all_goals simp

lemma mem_all_table_ids_processTableWrap (s : ValidationResults) (tw : XmlElem)
    (x : String) (h : x ∈ (processTableWrap s tw).all_table_ids) :
    x ∈ s.all_table_ids ∨ x ≠ "unknown" := by
  unfold processTableWrap at h
  by_cases hid : tw.idOrUnknown = "unknown"
  · cases hfind : tw.findTag "table" <;> rw [hfind] at h <;> simp [hid] at h <;>
      exact Or.inl h
  · cases hfind : tw.findTag "table" <;> rw [hfind] at h <;>
      simp [hid, List.mem_append] at h <;> rcases h with h | h
    · exact Or.inl h
    · exact Or.inr (by rw [h]; exact hid)
    · exact Or.inl h
    · exact Or.inr (by rw [h]; exact hid)

lemma mem_all_fig_ids_processFig (e : String) (s : ValidationResults) (f : XmlElem)
    (x : String) (h : x ∈ (processFig e s f).all_fig_ids) :
    x ∈ s.all_fig_ids ∨ x ≠ "unknown" := by
  simp only [processFig] at h
  revert h
  repeat' split
  all_goals intro h
  all_goals first
    | exact Or.inl h
    | (rcases List.mem_append.mp h with h2 | h2
       · exact Or.inl h2
       · exact Or.inr (by
           rw [List.mem_singleton.mp h2]
           exact ‹f.idOrUnknown ≠ "unknown"›))

lemma foldl_processTableWrap_misc (l : List XmlElem) :
    ∀ s : ValidationResults,
    (l.foldl processTableWrap s).table_id_duplicates = s.table_id_duplicates ∧
    (l.foldl processTableWrap s).fig_id_duplicates = s.fig_id_duplicates ∧
    (l.foldl processTableWrap s).all_fig_ids = s.all_fig_ids := by
  induction l with
  | nil => exact fun s => ⟨rfl, rfl, rfl⟩
  | cons w ws ih =>
    intro s
    obtain ⟨h1, h2, h3⟩ := ih (processTableWrap s w)
    obtain ⟨g1, g2, g3⟩ := processTableWrap_misc_fields s w
    exact ⟨h1.trans g1, h2.trans g2, h3.trans g3⟩

lemma foldl_processFig_misc (e : String) (l : List XmlElem) :
    ∀ s : ValidationResults,
    (l.foldl (processFig e) s).table_id_duplicates = s.table_id_duplicates ∧
    (l.foldl (processFig e) s).fig_id_duplicates = s.fig_id_duplicates ∧
    (l.foldl (processFig e) s).all_table_ids = s.all_table_ids := by
  induction l with
  | nil => exact fun s => ⟨rfl, rfl, rfl⟩
  | cons f fs ih =>
    intro s
    obtain ⟨h1, h2, h3⟩ := ih (processFig e s f)
    obtain ⟨g1, g2, g3⟩ := processFig_misc_fields e s f
    exact ⟨h1.trans g1, h2.trans g2, h3.trans g3⟩

lemma mem_all_table_ids_foldl (l : List XmlElem) :
    ∀ (s : ValidationResults) (x : String),
    x ∈ (l.foldl processTableWrap s).all_table_ids →
    x ∈ s.all_table_ids ∨ x ≠ "unknown" := by
  induction l with
  | nil => exact fun s x h => Or.inl h
  | cons w ws ih =>
    intro s x h
    rcases ih (processTableWrap s w) x h with h2 | h2
    · exact mem_all_table_ids_processTableWrap s w x h2
    · exact Or.inr h2

lemma mem_all_fig_ids_foldl (e : String) (l : List XmlElem) :
    ∀ (s : ValidationResults) (x : String),
    x ∈ (l.foldl (processFig e) s).all_fig_ids →
    x ∈ s.all_fig_ids ∨ x ≠ "unknown" := by
  induction l with
  | nil => exact fun s x h => Or.inl h
  | cons f fs ih =>
    intro s x h
    rcases ih (processFig e s f) x h with h2 | h2
    · exact mem_all_fig_ids_processFig e s f x h2
    · exact Or.inr h2

lemma mem_idDupEntries (l : List String) (e : IdDupIssue)
    (h : e ∈ idDupEntries l) : e.id ∈ l := by
  unfold idDupEntries at h
  obtain ⟨a, ha, hfa⟩ := List.mem_filterMap.mp h
  have hal : a ∈ l := ((mem_dedupFirstAux a _ _).mp ha).2
  by_cases hc : 1 < l.count a
  · rw [if_pos hc] at hfa
    cases hfa
    exact hal
  · rw [if_neg hc] at hfa
    cases hfa

lemma elementsPass_id_facts (root : XmlElem) (fn : String) :
    (elementsPass root fn).table_id_duplicates = [] ∧
    (elementsPass root fn).fig_id_duplicates = [] ∧
    (∀ x ∈ (elementsPass root fn).all_table_ids, x ≠ "unknown") ∧
    (∀ x ∈ (elementsPass root fn).all_fig_ids, x ≠ "unknown") := by
  have hrfl : elementsPass root fn =
      (root.findallTag "fig").foldl (processFig (extract_filename_pattern fn))
        ((root.findallTag "table-wrap").foldl processTableWrap
          (initResults fn (extract_filename_pattern fn)
            (root.findallTag "table-wrap").length (root.findallTag "fig").length)) := rfl
  obtain ⟨hf1, hf2, hf3⟩ := foldl_processFig_misc (extract_filename_pattern fn)
    (root.findallTag "fig")
    ((root.findallTag "table-wrap").foldl processTableWrap
      (initResults fn (extract_filename_pattern fn)
        (root.findallTag "table-wrap").length (root.findallTag "fig").length))
  obtain ⟨ht1, ht2, ht3⟩ := foldl_processTableWrap_misc (root.findallTag "table-wrap")
    (initResults fn (extract_filename_pattern fn)
      (root.findallTag "table-wrap").length (root.findallTag "fig").length)
  refine ⟨?_, ?_, ?_, ?_⟩
  · rw [hrfl, hf1, ht1]
    rfl
  · rw [hrfl, hf2, ht2]
    rfl
  · intro x hx
    rw [hrfl, hf3] at hx
    rcases mem_all_table_ids_foldl _ _ _ hx with h | h
    · cases h
    · exact h
  · intro x hx
    rw [hrfl] at hx
    rcases mem_all_fig_ids_foldl _ _ _ _ hx with h | h
    · rw [ht3] at h
      cases h
    · exact h

/-- C10: an element whose id attribute is present but literally equal to
`unknown` is processed exactly like an element with no id attribute; in
particular it is never recorded in `allTableIds` / `allFigIds`, so no
`table_id_duplicates` or `fig_id_duplicates` entry can carry the id
`unknown`, while image extraction and the per-element checks still run. -/
theorem claim_C10_unknown_id_treated_as_missing (root : XmlElem) (fn : String)
    (s : ValidationResults) (t ex : String)
    (attrs attrsNoId : List (String × String)) (ch : List XmlElem)
    (hu : attrs.lookup "id" = some "unknown")
    (hn : attrsNoId.lookup "id" = none) :
    processTableWrap s ⟨t, attrs, ch⟩ = processTableWrap s ⟨t, attrsNoId, ch⟩ ∧
    processFig ex s ⟨t, attrs, ch⟩ = processFig ex s ⟨t, attrsNoId, ch⟩ ∧
    (∀ e ∈ (validateParsed root fn).table_id_duplicates, e.id ≠ "unknown") ∧
    (∀ e ∈ (validateParsed root fn).fig_id_duplicates, e.id ≠ "unknown") := by
  obtain ⟨hd1, hd2, hm1, hm2⟩ := elementsPass_id_facts root fn
  refine ⟨?_, ?_, ?_, ?_⟩
  · unfold processTableWrap
    simp [XmlElem.idOrUnknown, XmlElem.getAttr, XmlElem.findTag,
      XmlElem.descendants, hu, hn]
  · unfold processFig
    simp [XmlElem.idOrUnknown, XmlElem.getAttr, XmlElem.findTag,
      XmlElem.descendants, hu, hn]
  · intro e he
    have hrfl2 : (validateParsed root fn).table_id_duplicates =
        (elementsPass root fn).table_id_duplicates ++
          idDupEntries (elementsPass root fn).all_table_ids := rfl
    rw [hrfl2, hd1, List.nil_append] at he
    exact hm1 _ (mem_idDupEntries _ _ he)
  · intro e he
    have hrfl3 : (validateParsed root fn).fig_id_duplicates =
        (elementsPass root fn).fig_id_duplicates ++
          idDupEntries (elementsPass root fn).all_fig_ids := rfl
    rw [hrfl3, hd2, List.nil_append] at he
    exact hm2 _ (mem_idDupEntries _ _ he)

theorem claim_C10_witness :
    (([("id", "unknown")] : List (String × String)).lookup "id" = some "unknown") ∧
    (([] : List (String × String)).lookup "id" = none) ∧
    processTableWrap (initResults "a.xml" "a" 0 0)
        ⟨"table-wrap", [("id", "unknown")], []⟩ =
      processTableWrap (initResults "a.xml" "a" 0 0) ⟨"table-wrap", [], []⟩ ∧
    processFig "a" (initResults "a.xml" "a" 0 0) ⟨"fig", [("id", "unknown")], []⟩ =
      processFig "a" (initResults "a.xml" "a" 0 0) ⟨"fig", [], []⟩ :=
  ⟨by decide, by decide,
   (claim_C10_unknown_id_treated_as_missing ⟨"article", [], []⟩ "a.xml"
     (initResults "a.xml" "a" 0 0) "table-wrap" "a" [("id", "unknown")] [] []
     (by decide) (by decide)).1,
   (claim_C10_unknown_id_treated_as_missing ⟨"article", [], []⟩ "a.xml"
     (initResults "a.xml" "a" 0 0) "fig" "a" [("id", "unknown")] [] []
     (by decide) (by decide)).2.1⟩

/-! ## C2: the filename pattern extractor -/

lemma takeWhile_append_of_boundary (p : Char → Bool) :
    ∀ (a r : List Char), (∀ c ∈ a, p c = true) →
    (∀ c, r.head? = some c → p c = false) →
    (a ++ r).takeWhile p = a ∧ (a ++ r).dropWhile p = r
  | [], r, _, hr => by
    cases r with
    | nil => exact ⟨rfl, rfl⟩
    | cons c cs =>
      have hc : p c = false := hr c rfl
      simp [List.takeWhile_cons, List.dropWhile_cons, hc]
  | c :: a, r, ha, hr => by
    have hc : p c = true := ha c (List.mem_cons_self _ _)
    obtain ⟨h1, h2⟩ := takeWhile_append_of_boundary p a r
      (fun d hd => ha d (List.mem_cons_of_mem _ hd)) hr
    simp [List.takeWhile_cons, List.dropWhile_cons, hc, h1, h2]

lemma decomp_of_matchLDDD (s g rest : List Char)
    (h : matchLDDD s = some (g, rest)) :
    ∃ a d1 d2 d3,
      s = a ++ '-' :: (d1 ++ '-' :: (d2 ++ '-' :: (d3 ++ rest))) ∧
      a ≠ [] ∧ (∀ c ∈ a, c.isAlpha = true) ∧
      d1 ≠ [] ∧ (∀ c ∈ d1, c.isDigit = true) ∧
      d2 ≠ [] ∧ (∀ c ∈ d2, c.isDigit = true) ∧
      d3 ≠ [] ∧ (∀ c ∈ d3, c.isDigit = true) := by
  simp only [matchLDDD] at h
  split at h
  · exact absurd h (by simp)
  · rename_i u1 u2 r2 hdropA hneA
    split at h
    · exact absurd h (by simp)
    · rename_i v1 v2 r4 hdrop1 hne1
      split at h
      · exact absurd h (by simp)
      · rename_i w1 w2 r6 hdrop2 hne2
        split at h
        · exact absurd h (by simp)
        · rename_i z1 hne3
          rw [Option.some.injEq, Prod.mk.injEq] at h
          obtain ⟨hg, hrest⟩ := h
          have e0 := List.takeWhile_append_dropWhile Char.isAlpha s
          have e1 := List.takeWhile_append_dropWhile Char.isDigit r2
          have e2 := List.takeWhile_append_dropWhile Char.isDigit r4
          have e3 := List.takeWhile_append_dropWhile Char.isDigit r6
          rw [hdropA] at e0
          rw [hdrop1] at e1
          rw [hdrop2] at e2
          rw [hrest] at e3
          set a := s.takeWhile Char.isAlpha with hadef
          set d1 := r2.takeWhile Char.isDigit with h1def
          set d2 := r4.takeWhile Char.isDigit with h2def
          set d3 := r6.takeWhile Char.isDigit with h3def
          refine ⟨a, d1, d2, d3, ?_, ?_, ?_, ?_, ?_, ?_, ?_, ?_, ?_⟩
          · rw [← e0, ← e1, ← e2, ← e3]
          · exact hneA
          · intro c hc
            rw [hadef] at hc
            exact List.mem_takeWhile_imp hc
          · exact hne1
          · intro c hc
            rw [h1def] at hc
            exact List.mem_takeWhile_imp hc
          · exact hne2
          · intro c hc
            rw [h2def] at hc
            exact List.mem_takeWhile_imp hc
          · exact hne3
          · intro c hc
            rw [h3def] at hc
            exact List.mem_takeWhile_imp hc
      · exact absurd h (by simp)
    · exact absurd h (by simp)
  · exact absurd h (by simp)

lemma matchLDDD_of_decomp (a d1 d2 d3 r : List Char)
    (ha0 : a ≠ []) (ha : ∀ c ∈ a, c.isAlpha = true)
    (h10 : d1 ≠ []) (h1 : ∀ c ∈ d1, c.isDigit = true)
    (h20 : d2 ≠ []) (h2 : ∀ c ∈ d2, c.isDigit = true)
    (h30 : d3 ≠ []) (h3 : ∀ c ∈ d3, c.isDigit = true)
    (hr : ∀ c, r.head? = some c → c.isDigit = false) :
    matchLDDD (a ++ '-' :: (d1 ++ '-' :: (d2 ++ '-' :: (d3 ++ r)))) =
      some (a ++ '-' :: (d1 ++ '-' :: (d2 ++ '-' :: d3)), r) := by
  obtain ⟨ca, as, rfl⟩ := List.exists_cons_of_ne_nil ha0
  obtain ⟨c1, ds1, rfl⟩ := List.exists_cons_of_ne_nil h10
  obtain ⟨c2, ds2, rfl⟩ := List.exists_cons_of_ne_nil h20
  obtain ⟨c3, ds3, rfl⟩ := List.exists_cons_of_ne_nil h30
  obtain ⟨tA, dA⟩ := takeWhile_append_of_boundary Char.isAlpha (ca :: as)
    ('-' :: ((c1 :: ds1) ++ '-' :: ((c2 :: ds2) ++ '-' :: ((c3 :: ds3) ++ r)))) ha
    (fun c hc => by cases hc; rfl)
  obtain ⟨t1e, d1e⟩ := takeWhile_append_of_boundary Char.isDigit (c1 :: ds1)
    ('-' :: ((c2 :: ds2) ++ '-' :: ((c3 :: ds3) ++ r))) h1
    (fun c hc => by cases hc; rfl)
  obtain ⟨t2e, d2e⟩ := takeWhile_append_of_boundary Char.isDigit (c2 :: ds2)
    ('-' :: ((c3 :: ds3) ++ r)) h2 (fun c hc => by cases hc; rfl)
  obtain ⟨t3e, d3e⟩ := takeWhile_append_of_boundary Char.isDigit (c3 :: ds3) r h3 hr
  simp only [matchLDDD, tA, dA, t1e, d1e, t2e, d2e, t3e, d3e]
  simp [List.cons_append, List.append_assoc]

/-- C2: after stripping the extension, a filename beginning with a run of
letters and three hyphen-separated digit runs (taken maximally, so the
remainder does not start with a digit) extracts exactly that leading
substring, and a filename with no such prefix extracts the
extension-stripped name unchanged. -/
theorem claim_C2_pattern_extraction (fn : String) :
    (∀ a d1 d2 d3 r : List Char,
      splitextStem fn.data = a ++ '-' :: (d1 ++ '-' :: (d2 ++ '-' :: (d3 ++ r))) →
      a ≠ [] → (∀ c ∈ a, c.isAlpha = true) →
      d1 ≠ [] → (∀ c ∈ d1, c.isDigit = true) →
      d2 ≠ [] → (∀ c ∈ d2, c.isDigit = true) →
      d3 ≠ [] → (∀ c ∈ d3, c.isDigit = true) →
      (∀ c, r.head? = some c → c.isDigit = false) →
      extract_filename_pattern fn =
        String.mk (a ++ '-' :: (d1 ++ '-' :: (d2 ++ '-' :: d3)))) ∧
    ((¬ ∃ a d1 d2 d3 r : List Char,
        splitextStem fn.data = a ++ '-' :: (d1 ++ '-' :: (d2 ++ '-' :: (d3 ++ r))) ∧
        a ≠ [] ∧ (∀ c ∈ a, c.isAlpha = true) ∧
        d1 ≠ [] ∧ (∀ c ∈ d1, c.isDigit = true) ∧
        d2 ≠ [] ∧ (∀ c ∈ d2, c.isDigit = true) ∧
        d3 ≠ [] ∧ (∀ c ∈ d3, c.isDigit = true)) →
      extract_filename_pattern fn = String.mk (splitextStem fn.data)) := by
  constructor
  · intro a d1 d2 d3 r heq ha0 ha h10 h1 h20 h2 h30 h3 hr
    have hm := matchLDDD_of_decomp a d1 d2 d3 r ha0 ha h10 h1 h20 h2 h30 h3 hr
    simp only [extract_filename_pattern]
    rw [heq, hm]
  · intro hne
    cases hm : matchLDDD (splitextStem fn.data) with
    | none =>
      simp only [extract_filename_pattern]
      rw [hm]
    | some gp =>
      obtain ⟨g, rest⟩ := gp
      obtain ⟨a, d1, d2, d3, heq, ha0, ha, h10, h1, h20, h2, h30, h3⟩ :=
        decomp_of_matchLDDD _ _ _ hm
      exact absurd ⟨a, d1, d2, d3, rest, heq, ha0, ha, h10, h1, h20, h2, h30, h3⟩ hne

theorem claim_C2_witness :
    extract_filename_pattern "JCS-41-4-694.xml" = "JCS-41-4-694" ∧
    extract_filename_pattern "myfile.xml" = "myfile" := by
  constructor
  · have h := (claim_C2_pattern_extraction "JCS-41-4-694.xml").1
      "JCS".data "41".data "4".data "694".data []
      (by decide) (by decide) (by decide) (by decide) (by decide)
      (by decide) (by decide) (by decide) (by decide)
      (fun c hc => nomatch hc)
    rw [h]
    decide
  · have h := (claim_C2_pattern_extraction "myfile.xml").2 ?_
    · rw [h]
      decide
    · rintro ⟨a, d1, d2, d3, r, heq, -, -, -, -, -, -, -, -⟩
      have hdash : ('-' : Char) ∈ splitextStem "myfile.xml".data := by
        rw [heq]
        exact List.mem_append_right _ (List.mem_cons_self _ _)
      exact absurd hdash (by decide)
